import Mathlib

/-!
Verification of the synthetic-data generation pipeline of
`ai-engine/generate.py`: the generation loop, the anomaly injector,
the leakage filter and the accumulator, modelled as pure functions.

Conventions of the embedding:

* pandas cell values are modelled by `Val` (integers, strings, null);
  pandas `merge` joins equal null keys, and accordingly `Val` equality
  makes `vNull = vNull` hold.
* a DataFrame row is an ordered association list of column name and
  value; a DataFrame is a list of such rows together with its column
  list.
* Python's float literals `1.1` and `0.05` are modelled by the
  rationals they denote, and `int(x)` for nonnegative `x` by the
  rational floor; for the integer arguments arising here the float
  computation and the rational one agree.
* the randomness of `DataFrame.sample` and of the generative model is
  modelled by explicit oracle parameters (`sel`, `sampleF`).
-/

abbrev Col := String

/-- A pandas cell value: integer, string, or null (NaN/None). -/
inductive Val where
  | vInt : Int → Val
  | vStr : String → Val
  | vNull : Val
deriving DecidableEq, Repr

/-- A DataFrame row: an ordered mapping from column name to value. -/
abbrev Row := List (Col × Val)

/-- Look a column up in a row (first binding wins). -/
def rowGet : Row → Col → Option Val
  | [], _ => none
  | (c', v) :: r, c => if c' = c then some v else rowGet r c

/-- Write a value into an existing column of a row
(`df.loc[i, col] = value` for a column already present). -/
def rowSet (r : Row) (c : Col) (v : Val) : Row :=
  r.map (fun p => if p.1 = c then (c, v) else p)

/-- Projection of a row onto a column list, the key tuple of the merge. -/
def projOn (common : List Col) (r : Row) : List (Option Val) :=
  common.map (fun c => rowGet r c)

/-- Number of original rows matching a candidate row on the common
columns (the candidate's multiplicity in the left-merge output). -/
def matchCount (common : List Col) (orig : List Row) (r : Row) : Nat :=
  (orig.filter (fun o => decide (projOn common r = projOn common o))).length

/-- The `_merge` indicator column of
`samples[common].merge(original, on=common, how='left', indicator=True)`:
one entry per merged row, in left order, `true` for `both` and `false`
for `left_only`.  The merged frame carries a fresh range index, so the
position in this list is the label later passed to `drop`. -/
def mergeFlags (common : List Col) (orig : List Row) (samples : List Row) : List Bool :=
  samples.flatMap (fun r =>
    let k := matchCount common orig r
    if k = 0 then [false] else List.replicate k true)

/-- `merged[merged['_merge'] == 'both'].index`: the positions of the
`both` rows in the merged frame. -/
def leaked_indices (common : List Col) (orig : List Row) (samples : List Row) : List Nat :=
  ((mergeFlags common orig samples).enum.filter (fun p => p.2)).map Prod.fst

/-- `samples.drop(labels)` on a frame with range index `0..len-1`:
`none` models the `KeyError` raised when a label is absent. -/
def drop_labels (xs : List Row) (labels : List Nat) : Option (List Row) :=
  if labels.all (fun l => decide (l < xs.length)) then
    some ((xs.enum.filter (fun p => decide (p.1 ∉ labels))).map Prod.snd)
  else none

/-- The leakage-protection step of one loop iteration
(`generate.py` lines 81-95): skipped when no original data or no rows
or no common columns; otherwise drop the `leaked_indices` labels from
the candidate batch. -/
def leak_step (orig : Option (List Col × List Row)) (sampleCols : List Col)
    (samples : List Row) : Option (List Row) :=
  match orig with
  | none => some samples
  | some (ocols, orows) =>
    if orows.isEmpty then some samples
    else
      let common := ocols.filter (fun c => decide (c ∈ sampleCols))
      if common.isEmpty then some samples
      else drop_labels samples (leaked_indices common orows samples)

/-- An anomaly rule as read off the parsed JSON object: every field is
optional because the source reads them with `anomaly.get`; the source
key of `fraction` is `'ratio'` (default 0.05). -/
structure Rule where
  column : Option Col
  type : Option String
  value : Option Val
  fraction : Option ℚ
deriving DecidableEq, Repr

/-- `int(len(df) * ratio)`: the number of rows an anomaly rule touches. -/
def sample_count (n : ℕ) (fraction : ℚ) : ℕ :=
  (((n : ℚ) * fraction).floor).toNat

/-- Assigning a Python value to a cell: `None` becomes null. -/
def valOrNull : Option Val → Val
  | none => Val.vNull
  | some v => v

/-- The body of the rule loop of `apply_anomalies` for one rule, given
the index set chosen by `df.sample(n=count).index`. -/
def apply_rule (cols : List Col) (df : List Row) (rule : Rule) (chosen : List Nat) :
    List Row :=
  match rule.column with
  | none => df
  | some c =>
    if c ∈ cols then
      if rule.type = some "fixed" then
        df.enum.map (fun p => if p.1 ∈ chosen then rowSet p.2 c (valOrNull rule.value) else p.2)
      else if rule.type = some "null" then
        df.enum.map (fun p => if p.1 ∈ chosen then rowSet p.2 c Val.vNull else p.2)
      else df
    else df

/-- `apply_anomalies(df, anomalies)` (`generate.py` lines 21-40), with
the random index choice of `df.sample` supplied by the oracle `sel`
(arguments: rule position, row count to draw). -/
def apply_anomalies (cols : List Col) (rules : List Rule) (sel : ℕ → ℕ → List ℕ)
    (df : List Row) : List Row :=
  rules.enum.foldl
    (fun d p => apply_rule cols d p.2 (sel p.1 (sample_count d.length (p.2.fraction.getD (1/20)))))
    df

/-- `load_anomalies(anomaly_json)` (`generate.py` lines 12-19).  The
JSON string is abstracted to what it parses to: `none` is a missing or
empty string, `some none` a string `json.loads` rejects, and
`some (some rules)` a string parsing to a rule list. -/
def load_anomalies : Option (Option (List Rule)) → Option (List Rule)
  | none => none
  | some none => none
  | some (some rs) => some rs

/-- Whether `load_anomalies` logged its parse-failure warning. -/
def parse_warned : Option (Option (List Rule)) → Bool
  | some none => true
  | _ => false

/-- Worker for `drop_duplicates`: keep the elements not seen before,
first occurrence first. -/
def dedupGo {α : Type} [DecidableEq α] (seen : List α) : List α → List α
  | [] => []
  | x :: xs => if x ∈ seen then dedupGo seen xs else x :: dedupGo (seen ++ [x]) xs

/-- pandas `DataFrame.drop_duplicates()`: full-row equality, keep the
first occurrence, preserve order. -/
def drop_duplicates {α : Type} [DecidableEq α] (l : List α) : List α :=
  dedupGo [] l

/-- The accumulator step (`generate.py` lines 97-99):
`pd.concat([result, batch], ignore_index=True).drop_duplicates()`. -/
def accumulate (rs batch : List Row) : List Row :=
  drop_duplicates (rs ++ batch)

/-- Position of the first occurrence of an element in a list (length
of the list when absent). -/
def firstIdx {α : Type} [DecidableEq α] : List α → α → ℕ
  | [], _ => 0
  | x :: xs, a => if x = a then 0 else firstIdx xs a + 1

/-- `int(needed * 1.1) + 10` (`generate.py` line 66), the batch size
requested from the model. -/
def batch_size (needed : ℤ) : ℤ :=
  (((needed : ℚ) * (11/10)).floor) + 10

/-- How one run of the generation loop ended: the loop condition went
false, `model.sample` raised (`break` at line 73), or `samples.drop`
raised a `KeyError` that nothing catches. -/
inductive LoopExit where
  | normal : LoopExit
  | sampleFailed : LoopExit
  | filterCrashed : LoopExit
deriving DecidableEq, Repr

/-- Observable outcome of the while-loop: accumulated rows, attempts
made, calls to the model, whether the anomaly parse-and-inject step of
line 76 ran at least once (it sits after the `model.sample` call, so
it runs exactly on iterations whose sampling call succeeds), and the
log of (needed, batch_size) requests. -/
structure LoopOut where
  rows : List Row
  attempts : ℕ
  calls : ℕ
  injectRan : Bool
  reqs : List (ℤ × ℤ)
  exit : LoopExit
deriving DecidableEq, Repr

/-- Lines 75-78 of `generate.py`: parse result in hand, inject the
anomalies when the parsed object is truthy (a non-empty list). -/
def inject_step (sampleCols : List Col) (rules : Option (List Rule))
    (selA : ℕ → ℕ → List ℕ) (samples : List Row) : List Row :=
  match rules with
  | some rs => if rs.isEmpty then samples else apply_anomalies sampleCols rs selA samples
  | none => samples

/-- The while-loop of `generate` (`generate.py` lines 62-99), fuel =
`max_attempts - attempts` (so the loop guard `attempts < max_attempts`
is `fuel > 0`).  `sampleF attempt n` is `model.sample(num_rows=n)` on
the given attempt, `none` modelling a sampling exception. -/
def loopGo (count : ℤ) (sampleF : ℕ → ℕ → Option (List Row)) (sampleCols : List Col)
    (orig : Option (List Col × List Row)) (sel : ℕ → ℕ → ℕ → List ℕ)
    (rules : Option (List Rule)) :
    ℕ → ℕ → ℕ → Bool → List Row → List (ℤ × ℤ) → LoopOut
  | 0, attempts, calls, inj, acc, reqs => ⟨acc, attempts, calls, inj, reqs, .normal⟩
  | fuel + 1, attempts, calls, inj, acc, reqs =>
    if (acc.length : ℤ) < count then
      match sampleF (attempts + 1) (batch_size (count - acc.length)).toNat with
      | none =>
        ⟨acc, attempts + 1, calls + 1, inj,
          reqs ++ [(count - acc.length, batch_size (count - acc.length))], .sampleFailed⟩
      | some samples =>
        match leak_step orig sampleCols (inject_step sampleCols rules (sel (attempts + 1)) samples) with
        | none =>
          ⟨acc, attempts + 1, calls + 1, true,
            reqs ++ [(count - acc.length, batch_size (count - acc.length))], .filterCrashed⟩
        | some filtered =>
          loopGo count sampleF sampleCols orig sel rules fuel (attempts + 1) (calls + 1) true
            (accumulate acc filtered)
            (reqs ++ [(count - acc.length, batch_size (count - acc.length))])
    else ⟨acc, attempts, calls, inj, reqs, .normal⟩

/-- `DataFrame.head(n)`: the first `n` rows, or all but the last `|n|`
rows when `n` is negative. -/
def python_head (rows : List Row) (n : ℤ) : List Row :=
  if 0 ≤ n then rows.take n.toNat else rows.take (rows.length - n.natAbs)

/-- Spec 4.5 lifecycle states, derived from the code's observable
terminal behaviour. -/
inductive GState where
  | SUCCESS : GState
  | PARTIAL : GState
  | FAILED : GState
deriving DecidableEq, Repr

/-- Observable outcome of a whole `generate` run (after model load,
before process exit): loop outcome, rows written, whether the shortfall
warning of line 107 fired, terminal state, whether the output file was
written, whether the anomaly-JSON warning fired. -/
structure RunResult where
  out : LoopOut
  final : List Row
  shortfallWarned : Bool
  state : GState
  fileWritten : Bool
  anomalyWarned : Bool
deriving DecidableEq, Repr

/-- Inputs of a `generate` run.  `orig = none` models a missing
original path; the model schema is `sampleCols`. -/
structure GenConfig where
  count : ℤ
  sampleCols : List Col
  sampleF : ℕ → ℕ → Option (List Row)
  orig : Option (List Col × List Row)
  anomalyCfg : Option (Option (List Rule))
  sel : ℕ → ℕ → ℕ → List ℕ

/-- Lines 101-103 of `generate.py`: trim to the exact count. -/
def trim_final (rows : List Row) (count : ℤ) : List Row :=
  if (rows.length : ℤ) > count then python_head rows count else rows

/-- The terminal lifecycle state, read off the code's observable
terminal behaviour: a sampling error or an uncaught filter error are
failures, otherwise the shortfall warning of line 107 separates
`PARTIAL` from `SUCCESS`. -/
def run_state (e : LoopExit) (shortfall : Bool) : GState :=
  match e with
  | .sampleFailed => .FAILED
  | .filterCrashed => .FAILED
  | .normal => if shortfall then .PARTIAL else .SUCCESS

/-- Lines 101-117 of `generate.py`: trim, warn on shortfall, write the
file; an uncaught `KeyError` from the leakage filter aborts the process
before any of that happens. -/
def finish (count : ℤ) (warned : Bool) (lo : LoopOut) : RunResult :=
  match lo.exit with
  | .filterCrashed => ⟨lo, [], false, .FAILED, false, warned⟩
  | _ =>
    ⟨lo, trim_final lo.rows count,
      decide (((trim_final lo.rows count).length : ℤ) < count),
      run_state lo.exit (decide (((trim_final lo.rows count).length : ℤ) < count)),
      true, warned⟩

/-- `generate` (`generate.py` lines 55-117) from after the model load
to the write of the output file: run the loop with budget 10, then
finish.  The parse-failure warning of `load_anomalies` is logged at
line 76, inside the loop and after a successful sampling call, so it
is recorded exactly when the configuration is unparseable and the
inject step ran at least once. -/
def generateRun (cfg : GenConfig) : RunResult :=
  finish cfg.count
    (parse_warned cfg.anomalyCfg &&
      (loopGo cfg.count cfg.sampleF cfg.sampleCols cfg.orig cfg.sel
        (load_anomalies cfg.anomalyCfg) 10 0 0 false [] []).injectRan)
    (loopGo cfg.count cfg.sampleF cfg.sampleCols cfg.orig cfg.sel
      (load_anomalies cfg.anomalyCfg) 10 0 0 false [] [])

/-- Shorthand for a one-column row over column `x`. -/
def rx (k : ℤ) : Row := [("x", Val.vInt k)]

/-- A well-formed FIXED_VALUE rule. -/
def fixed_rule (c : Col) (v : Val) (f : ℚ) : Rule :=
  ⟨some c, some "fixed", some v, some f⟩

/-- A well-formed NULLIFY rule. -/
def null_rule (c : Col) (f : ℚ) : Rule :=
  ⟨some c, some "null", none, some f⟩

/-- The Accumulator run over a whole batch sequence, from the empty
result set. -/
def runAcc (bs : List (List Row)) : List Row :=
  bs.foldl accumulate []

/-- Run where the leakage filter faces an original with a duplicated
key row: target 1, the model offers x = 1, 2, 3, 4, and the original
data holds x = 1 (twice) and x = 3. -/
def cfgC1 : GenConfig :=
  { count := 1, sampleCols := ["x"],
    sampleF := fun _ _ => some [rx 1, rx 2, rx 3, rx 4],
    orig := some (["x"], [rx 1, rx 1, rx 3]),
    anomalyCfg := none, sel := fun _ _ _ => [] }

/-- Run with target 5 whose first sampling call fails. -/
def cfgC3 : GenConfig :=
  { count := 5, sampleCols := ["x"], sampleF := fun _ _ => none,
    orig := none, anomalyCfg := none, sel := fun _ _ _ => [] }

/-- Run with target 2 where the model always offers x = 1, 2, 3. -/
def cfgC5 : GenConfig :=
  { count := 2, sampleCols := ["x"],
    sampleF := fun _ _ => some [rx 1, rx 2, rx 3],
    orig := none, anomalyCfg := none, sel := fun _ _ _ => [] }

/-- Run with target 0. -/
def cfgC6 : GenConfig :=
  { count := 0, sampleCols := ["x"], sampleF := fun _ _ => none,
    orig := none, anomalyCfg := none, sel := fun _ _ _ => [] }

/-- Run with target 5 whose first sampling call fails. -/
def cfgC7 : GenConfig :=
  { count := 5, sampleCols := ["x"], sampleF := fun _ _ => none,
    orig := none, anomalyCfg := none, sel := fun _ _ _ => [] }

/-- Run with target 1 and an anomaly-JSON string that fails to parse. -/
def cfgC10 : GenConfig :=
  { count := 1, sampleCols := ["x"],
    sampleF := fun _ _ => some [rx 1, rx 2],
    orig := none, anomalyCfg := some none, sel := fun _ _ _ => [] }

/-- Run with target 5, an unparseable anomaly-JSON string, and a first
sampling call that fails, so the loop never reaches the inject step of
line 76. -/
def cfgC10f : GenConfig :=
  { count := 5, sampleCols := ["x"], sampleF := fun _ _ => none,
    orig := none, anomalyCfg := some none, sel := fun _ _ _ => [] }

/-! ### Properties of `drop_duplicates` and the Accumulator -/

theorem dedupGo_nil {α : Type} [DecidableEq α] (seen : List α) :
    dedupGo seen [] = [] := rfl

theorem dedupGo_cons_mem {α : Type} [DecidableEq α] {seen : List α} {y : α} (ys : List α)
    (h : y ∈ seen) : dedupGo seen (y :: ys) = dedupGo seen ys := by
  rw [dedupGo, if_pos h]

theorem dedupGo_cons_not_mem {α : Type} [DecidableEq α] {seen : List α} {y : α} (ys : List α)
    (h : y ∉ seen) : dedupGo seen (y :: ys) = y :: dedupGo (seen ++ [y]) ys := by
  rw [dedupGo, if_neg h]

theorem dedupGo_mem {α : Type} [DecidableEq α] (l : List α) :
    ∀ (seen : List α) (x : α), x ∈ dedupGo seen l ↔ x ∈ l ∧ x ∉ seen := by
  induction l with
  | nil => intro seen x; simp [dedupGo_nil]
  | cons y ys ih =>
    intro seen x
    by_cases hy : y ∈ seen
    · rw [dedupGo_cons_mem ys hy, ih]
      simp only [List.mem_cons]
      constructor
      · rintro ⟨hx, hns⟩; exact ⟨Or.inr hx, hns⟩
      · rintro ⟨rfl | hx, hns⟩
        · exact absurd hy hns
        · exact ⟨hx, hns⟩
    · rw [dedupGo_cons_not_mem ys hy]
      simp only [List.mem_cons, ih, List.mem_append, List.mem_singleton,
        List.not_mem_nil, or_false]
      constructor
      · rintro (rfl | ⟨hx, hns⟩)
        · exact ⟨Or.inl rfl, hy⟩
        · exact ⟨Or.inr hx, fun h => hns (Or.inl h)⟩
      · rintro ⟨rfl | hx, hns⟩
        · exact Or.inl rfl
        · by_cases hxy : x = y
          · exact Or.inl hxy
          · refine Or.inr ⟨hx, ?_⟩
            rintro (h | h)
            · exact hns h
            · exact hxy h

theorem dedupGo_nodup {α : Type} [DecidableEq α] (l : List α) :
    ∀ seen : List α, (dedupGo seen l).Nodup := by
  induction l with
  | nil => intro seen; simp [dedupGo_nil]
  | cons y ys ih =>
    intro seen
    by_cases hy : y ∈ seen
    · rw [dedupGo_cons_mem ys hy]; exact ih seen
    · rw [dedupGo_cons_not_mem ys hy]
      refine List.nodup_cons.mpr ⟨?_, ih _⟩
      intro hmem
      exact ((dedupGo_mem ys _ y).mp hmem).2 (by simp)

theorem dedupGo_sublist {α : Type} [DecidableEq α] (l : List α) :
    ∀ seen : List α, List.Sublist (dedupGo seen l) l := by
  induction l with
  | nil => intro seen; simp [dedupGo_nil]
  | cons y ys ih =>
    intro seen
    by_cases hy : y ∈ seen
    · rw [dedupGo_cons_mem ys hy]
      exact (ih seen).trans (List.sublist_cons_self y ys)
    · rw [dedupGo_cons_not_mem ys hy]
      exact List.Sublist.cons₂ y (ih _)

theorem dedupGo_pairwise {α : Type} [DecidableEq α] (l : List α) :
    ∀ seen : List α,
      (dedupGo seen l).Pairwise (fun a b => firstIdx l a < firstIdx l b) := by
  induction l with
  | nil => intro seen; simp [dedupGo_nil]
  | cons y ys ih =>
    intro seen
    have key : ∀ s : List α, y ∈ s →
        (dedupGo s ys).Pairwise (fun a b => firstIdx (y :: ys) a < firstIdx (y :: ys) b) := by
      intro s hys
      refine List.Pairwise.imp_of_mem ?_ (ih s)
      intro a b ha hb hab
      have hay : ¬ (y = a) := by
        intro h; exact ((dedupGo_mem ys s a).mp ha).2 (h ▸ hys)
      have hby : ¬ (y = b) := by
        intro h; exact ((dedupGo_mem ys s b).mp hb).2 (h ▸ hys)
      simp only [firstIdx, if_neg hay, if_neg hby]
      omega
    by_cases hy : y ∈ seen
    · rw [dedupGo_cons_mem ys hy]; exact key seen hy
    · rw [dedupGo_cons_not_mem ys hy]
      refine List.pairwise_cons.mpr ⟨?_, key (seen ++ [y]) (by simp)⟩
      intro b hb
      have hby : ¬ (y = b) := by
        intro h
        exact ((dedupGo_mem ys _ b).mp hb).2 (by simp [h])
      have h0 : firstIdx (y :: ys) y = 0 := by simp [firstIdx]
      have hpos : firstIdx (y :: ys) b = firstIdx ys b + 1 := by simp [firstIdx, hby]
      omega

theorem dedupGo_eq_nil {α : Type} [DecidableEq α] (l : List α) :
    ∀ seen : List α, (∀ x ∈ l, x ∈ seen) → dedupGo seen l = [] := by
  induction l with
  | nil => intro seen _; rfl
  | cons y ys ih =>
    intro seen h
    rw [dedupGo_cons_mem ys (h y (by simp))]
    exact ih seen fun x hx => h x (List.mem_cons_of_mem _ hx)

theorem dedupGo_dedupGo_append {α : Type} [DecidableEq α] (l : List α) :
    ∀ seen b : List α, dedupGo seen (dedupGo seen l ++ b) = dedupGo seen (l ++ b) := by
  induction l with
  | nil => intro seen b; rfl
  | cons y ys ih =>
    intro seen b
    by_cases hy : y ∈ seen
    · rw [dedupGo_cons_mem ys hy, ih seen b, List.cons_append, dedupGo_cons_mem _ hy]
    · rw [dedupGo_cons_not_mem ys hy, List.cons_append, dedupGo_cons_not_mem _ hy,
        ih (seen ++ [y]) b, List.cons_append, dedupGo_cons_not_mem _ hy]

theorem dedupGo_append_of_subset {α : Type} [DecidableEq α] (l : List α) :
    ∀ seen b : List α, (∀ x ∈ b, x ∈ l ∨ x ∈ seen) →
      dedupGo seen (l ++ b) = dedupGo seen l := by
  induction l with
  | nil =>
    intro seen b h
    rw [List.nil_append, dedupGo_nil]
    exact dedupGo_eq_nil b seen fun x hx => (h x hx).resolve_left (by simp)
  | cons y ys ih =>
    intro seen b h
    by_cases hy : y ∈ seen
    · rw [List.cons_append, dedupGo_cons_mem _ hy, dedupGo_cons_mem ys hy]
      refine ih seen b fun x hx => ?_
      rcases h x hx with hx' | hx'
      · rcases List.mem_cons.mp hx' with rfl | hx''
        · exact Or.inr hy
        · exact Or.inl hx''
      · exact Or.inr hx'
    · rw [List.cons_append, dedupGo_cons_not_mem _ hy, dedupGo_cons_not_mem ys hy]
      congr 1
      refine ih (seen ++ [y]) b fun x hx => ?_
      rcases h x hx with hx' | hx'
      · rcases List.mem_cons.mp hx' with rfl | hx''
        · exact Or.inr (by simp)
        · exact Or.inl hx''
      · exact Or.inr (List.mem_append_left _ hx')

theorem foldl_accumulate (bs : List (List Row)) :
    ∀ init : List Row,
      bs.foldl accumulate (drop_duplicates init) = drop_duplicates (init ++ bs.flatten) := by
  induction bs with
  | nil => intro init; simp
  | cons b bs ih =>
    intro init
    rw [List.foldl_cons]
    have h1 : accumulate (drop_duplicates init) b = drop_duplicates (init ++ b) :=
      dedupGo_dedupGo_append init [] b
    rw [h1, ih (init ++ b), List.flatten_cons, List.append_assoc]

theorem runAcc_eq (bs : List (List Row)) : runAcc bs = drop_duplicates bs.flatten := by
  have h := foldl_accumulate bs []
  simpa [runAcc, drop_duplicates, dedupGo_nil] using h

/-! ### Unfolding lemmas for the generation loop -/

theorem loopGo_zero {count : ℤ} {sampleF : ℕ → ℕ → Option (List Row)} {sampleCols : List Col}
    {orig : Option (List Col × List Row)} {sel : ℕ → ℕ → ℕ → List ℕ}
    {rules : Option (List Rule)} {attempts calls : ℕ} {inj : Bool} {acc : List Row}
    {reqs : List (ℤ × ℤ)} :
    loopGo count sampleF sampleCols orig sel rules 0 attempts calls inj acc reqs =
      ⟨acc, attempts, calls, inj, reqs, .normal⟩ := rfl

theorem loopGo_done {count : ℤ} {sampleF : ℕ → ℕ → Option (List Row)} {sampleCols : List Col}
    {orig : Option (List Col × List Row)} {sel : ℕ → ℕ → ℕ → List ℕ}
    {rules : Option (List Rule)} {fuel attempts calls : ℕ} {inj : Bool} {acc : List Row}
    {reqs : List (ℤ × ℤ)} (h : ¬ ((acc.length : ℤ) < count)) :
    loopGo count sampleF sampleCols orig sel rules fuel attempts calls inj acc reqs =
      ⟨acc, attempts, calls, inj, reqs, .normal⟩ := by
  cases fuel with
  | zero => rfl
  | succ fuel => rw [loopGo, if_neg h]

theorem loopGo_succ_none {count : ℤ} {sampleF : ℕ → ℕ → Option (List Row)}
    {sampleCols : List Col} {orig : Option (List Col × List Row)} {sel : ℕ → ℕ → ℕ → List ℕ}
    {rules : Option (List Rule)} {fuel attempts calls : ℕ} {inj : Bool} {acc : List Row}
    {reqs : List (ℤ × ℤ)} (hlt : (acc.length : ℤ) < count)
    (hs : sampleF (attempts + 1) (batch_size (count - acc.length)).toNat = none) :
    loopGo count sampleF sampleCols orig sel rules (fuel + 1) attempts calls inj acc reqs =
      ⟨acc, attempts + 1, calls + 1, inj,
        reqs ++ [(count - acc.length, batch_size (count - acc.length))], .sampleFailed⟩ := by
  simp [loopGo, hlt, hs]

theorem loopGo_succ_crash {count : ℤ} {sampleF : ℕ → ℕ → Option (List Row)}
    {sampleCols : List Col} {orig : Option (List Col × List Row)} {sel : ℕ → ℕ → ℕ → List ℕ}
    {rules : Option (List Rule)} {fuel attempts calls : ℕ} {inj : Bool} {acc : List Row}
    {reqs : List (ℤ × ℤ)} {samples : List Row} (hlt : (acc.length : ℤ) < count)
    (hs : sampleF (attempts + 1) (batch_size (count - acc.length)).toNat = some samples)
    (hl : leak_step orig sampleCols
        (inject_step sampleCols rules (sel (attempts + 1)) samples) = none) :
    loopGo count sampleF sampleCols orig sel rules (fuel + 1) attempts calls inj acc reqs =
      ⟨acc, attempts + 1, calls + 1, true,
        reqs ++ [(count - acc.length, batch_size (count - acc.length))], .filterCrashed⟩ := by
  simp [loopGo, hlt, hs, hl]

theorem loopGo_succ_step {count : ℤ} {sampleF : ℕ → ℕ → Option (List Row)}
    {sampleCols : List Col} {orig : Option (List Col × List Row)} {sel : ℕ → ℕ → ℕ → List ℕ}
    {rules : Option (List Rule)} {fuel attempts calls : ℕ} {inj : Bool} {acc : List Row}
    {reqs : List (ℤ × ℤ)} {samples filtered : List Row} (hlt : (acc.length : ℤ) < count)
    (hs : sampleF (attempts + 1) (batch_size (count - acc.length)).toNat = some samples)
    (hl : leak_step orig sampleCols
        (inject_step sampleCols rules (sel (attempts + 1)) samples) = some filtered) :
    loopGo count sampleF sampleCols orig sel rules (fuel + 1) attempts calls inj acc reqs =
      loopGo count sampleF sampleCols orig sel rules fuel (attempts + 1) (calls + 1) true
        (accumulate acc filtered)
        (reqs ++ [(count - acc.length, batch_size (count - acc.length))]) := by
  simp [loopGo, hlt, hs, hl]

theorem loopGo_normal_budget (count : ℤ) (sampleF : ℕ → ℕ → Option (List Row))
    (sampleCols : List Col) (orig : Option (List Col × List Row))
    (sel : ℕ → ℕ → ℕ → List ℕ) (rules : Option (List Rule)) :
    ∀ (fuel attempts calls : ℕ) (inj : Bool) (acc : List Row) (reqs : List (ℤ × ℤ)),
      (loopGo count sampleF sampleCols orig sel rules fuel attempts calls inj acc reqs).exit =
          LoopExit.normal →
      count ≤ ((loopGo count sampleF sampleCols orig sel rules fuel attempts calls inj acc
            reqs).rows.length : ℤ) ∨
        (loopGo count sampleF sampleCols orig sel rules fuel attempts calls inj acc
            reqs).attempts = attempts + fuel := by
  intro fuel
  induction fuel with
  | zero => intro attempts calls inj acc reqs _; right; rfl
  | succ fuel ih =>
    intro attempts calls inj acc reqs h
    by_cases hlt : (acc.length : ℤ) < count
    · cases hs : sampleF (attempts + 1) (batch_size (count - acc.length)).toNat with
      | none =>
        rw [loopGo_succ_none hlt hs] at h
        exact absurd h (by simp)
      | some samples =>
        cases hl : leak_step orig sampleCols
            (inject_step sampleCols rules (sel (attempts + 1)) samples) with
        | none =>
          rw [loopGo_succ_crash hlt hs hl] at h
          exact absurd h (by simp)
        | some filtered =>
          rw [loopGo_succ_step hlt hs hl] at h ⊢
          rcases ih (attempts + 1) (calls + 1) true (accumulate acc filtered)
              (reqs ++ [(count - acc.length, batch_size (count - acc.length))]) h with h' | h'
          · exact Or.inl h'
          · right; rw [h']; omega
    · rw [loopGo_done hlt]
      left
      simpa using not_lt.mp hlt

theorem loopGo_attempts_le (count : ℤ) (sampleF : ℕ → ℕ → Option (List Row))
    (sampleCols : List Col) (orig : Option (List Col × List Row))
    (sel : ℕ → ℕ → ℕ → List ℕ) (rules : Option (List Rule)) :
    ∀ (fuel attempts calls : ℕ) (inj : Bool) (acc : List Row) (reqs : List (ℤ × ℤ)),
      (loopGo count sampleF sampleCols orig sel rules fuel attempts calls inj acc
          reqs).attempts ≤ attempts + fuel := by
  intro fuel
  induction fuel with
  | zero => intro attempts calls inj acc reqs; rw [loopGo_zero]; dsimp only; omega
  | succ fuel ih =>
    intro attempts calls inj acc reqs
    by_cases hlt : (acc.length : ℤ) < count
    · cases hs : sampleF (attempts + 1) (batch_size (count - acc.length)).toNat with
      | none => rw [loopGo_succ_none hlt hs]; dsimp only; omega
      | some samples =>
        cases hl : leak_step orig sampleCols
            (inject_step sampleCols rules (sel (attempts + 1)) samples) with
        | none => rw [loopGo_succ_crash hlt hs hl]; dsimp only; omega
        | some filtered =>
          rw [loopGo_succ_step hlt hs hl]
          have := ih (attempts + 1) (calls + 1) true (accumulate acc filtered)
            (reqs ++ [(count - acc.length, batch_size (count - acc.length))])
          omega
    · rw [loopGo_done hlt]; dsimp only; omega

theorem loopGo_reqs_spec (count : ℤ) (sampleF : ℕ → ℕ → Option (List Row))
    (sampleCols : List Col) (orig : Option (List Col × List Row))
    (sel : ℕ → ℕ → ℕ → List ℕ) (rules : Option (List Rule)) :
    ∀ (fuel attempts calls : ℕ) (inj : Bool) (acc : List Row) (reqs : List (ℤ × ℤ)),
      (∀ p ∈ reqs, 0 < p.1 ∧ p.2 = batch_size p.1) →
      ∀ p ∈ (loopGo count sampleF sampleCols orig sel rules fuel attempts calls inj acc
          reqs).reqs, 0 < p.1 ∧ p.2 = batch_size p.1 := by
  intro fuel
  induction fuel with
  | zero =>
    intro attempts calls inj acc reqs hbase p hp
    rw [loopGo_zero] at hp
    exact hbase p hp
  | succ fuel ih =>
    intro attempts calls inj acc reqs hbase p hp
    have hstep : ∀ q ∈ reqs ++ [(count - acc.length, batch_size (count - acc.length))],
        (acc.length : ℤ) < count → 0 < q.1 ∧ q.2 = batch_size q.1 := by
      intro q hq hlt
      rcases List.mem_append.mp hq with hq' | hq'
      · exact hbase q hq'
      · rcases List.mem_singleton.mp hq' with rfl
        exact ⟨by omega, rfl⟩
    by_cases hlt : (acc.length : ℤ) < count
    · cases hs : sampleF (attempts + 1) (batch_size (count - acc.length)).toNat with
      | none =>
        rw [loopGo_succ_none hlt hs] at hp
        exact hstep p hp hlt
      | some samples =>
        cases hl : leak_step orig sampleCols
            (inject_step sampleCols rules (sel (attempts + 1)) samples) with
        | none =>
          rw [loopGo_succ_crash hlt hs hl] at hp
          exact hstep p hp hlt
        | some filtered =>
          rw [loopGo_succ_step hlt hs hl] at hp
          exact ih (attempts + 1) (calls + 1) true (accumulate acc filtered) _
            (fun q hq => hstep q hq hlt) p hp
    · rw [loopGo_done hlt] at hp
      exact hbase p hp

theorem loopGo_sampleFailed_spec (count : ℤ) (sampleF : ℕ → ℕ → Option (List Row))
    (sampleCols : List Col) (orig : Option (List Col × List Row))
    (sel : ℕ → ℕ → ℕ → List ℕ) (rules : Option (List Rule)) :
    ∀ (fuel attempts calls : ℕ) (inj : Bool) (acc : List Row) (reqs : List (ℤ × ℤ)),
      (loopGo count sampleF sampleCols orig sel rules fuel attempts calls inj acc reqs).exit =
          LoopExit.sampleFailed →
      sampleF
          (loopGo count sampleF sampleCols orig sel rules fuel attempts calls inj acc
            reqs).attempts
          (batch_size (count -
            ((loopGo count sampleF sampleCols orig sel rules fuel attempts calls inj acc
              reqs).rows.length : ℤ))).toNat = none := by
  intro fuel
  induction fuel with
  | zero =>
    intro attempts calls inj acc reqs h
    rw [loopGo_zero] at h
    exact absurd h (by simp)
  | succ fuel ih =>
    intro attempts calls inj acc reqs h
    by_cases hlt : (acc.length : ℤ) < count
    · cases hs : sampleF (attempts + 1) (batch_size (count - acc.length)).toNat with
      | none =>
        rw [loopGo_succ_none hlt hs]
        exact hs
      | some samples =>
        cases hl : leak_step orig sampleCols
            (inject_step sampleCols rules (sel (attempts + 1)) samples) with
        | none =>
          rw [loopGo_succ_crash hlt hs hl] at h
          exact absurd h (by simp)
        | some filtered =>
          rw [loopGo_succ_step hlt hs hl] at h ⊢
          exact ih (attempts + 1) (calls + 1) true (accumulate acc filtered) _ h
    · rw [loopGo_done hlt] at h
      exact absurd h (by simp)

/-! ### Arithmetic of the batch size and facts about `finish` -/

theorem batch_size_eq_ediv (needed : ℤ) : batch_size needed = 11 * needed / 10 + 10 := by
  unfold batch_size
  have h1 : ((needed : ℚ) * (11 / 10)) = ((11 * needed : ℤ) : ℚ) / ((10 : ℕ) : ℚ) := by
    push_cast
    ring
  have h2 : ((needed : ℚ) * (11 / 10)).floor = ⌊((needed : ℚ) * (11 / 10))⌋ := by
    rw [Rat.floor_def', Rat.floor_def]
  rw [h2, h1, Rat.floor_intCast_div_natCast]
  norm_num

theorem finish_exit_normal (count : ℤ) (warned : Bool) (lo : LoopOut)
    (h : lo.exit = LoopExit.normal) :
    finish count warned lo =
      ⟨lo, trim_final lo.rows count,
        decide (((trim_final lo.rows count).length : ℤ) < count),
        (if ((trim_final lo.rows count).length : ℤ) < count then GState.PARTIAL
          else GState.SUCCESS),
        true, warned⟩ := by
  obtain ⟨rows, attempts, calls, inj, reqs, e⟩ := lo
  dsimp only at h
  subst h
  simp only [finish, run_state]
  by_cases hs : ((trim_final rows count).length : ℤ) < count <;> simp [hs]

theorem finish_exit_sampleFailed (count : ℤ) (warned : Bool) (lo : LoopOut)
    (h : lo.exit = LoopExit.sampleFailed) :
    finish count warned lo =
      ⟨lo, trim_final lo.rows count,
        decide (((trim_final lo.rows count).length : ℤ) < count),
        GState.FAILED, true, warned⟩ := by
  obtain ⟨rows, attempts, calls, inj, reqs, e⟩ := lo
  dsimp only at h
  subst h
  simp [finish, run_state]

theorem finish_out (count : ℤ) (warned : Bool) (lo : LoopOut) :
    (finish count warned lo).out = lo := by
  obtain ⟨rows, attempts, calls, inj, reqs, e⟩ := lo
  cases e <;> rfl

theorem finish_warned_indep (count : ℤ) (w w' : Bool) (lo : LoopOut) :
    finish count w lo = { finish count w' lo with anomalyWarned := w } := by
  obtain ⟨rows, attempts, calls, inj, reqs, e⟩ := lo
  cases e <;> rfl

theorem finish_anomalyWarned (count : ℤ) (warned : Bool) (lo : LoopOut) :
    (finish count warned lo).anomalyWarned = warned := by
  obtain ⟨rows, attempts, calls, inj, reqs, e⟩ := lo
  cases e <;> rfl

theorem generateRun_out (cfg : GenConfig) :
    (generateRun cfg).out =
      loopGo cfg.count cfg.sampleF cfg.sampleCols cfg.orig cfg.sel
        (load_anomalies cfg.anomalyCfg) 10 0 0 false [] [] := by
  unfold generateRun
  exact finish_out ..

theorem trim_final_nil (count : ℤ) : trim_final [] count = [] := by
  unfold trim_final python_head
  split
  · split <;> simp
  · rfl

theorem trim_final_of_ge (rows : List Row) (count : ℤ) (h0 : 0 ≤ count)
    (h : count ≤ (rows.length : ℤ)) :
    trim_final rows count = rows.take count.toNat := by
  unfold trim_final
  by_cases hgt : (rows.length : ℤ) > count
  · rw [if_pos hgt]
    unfold python_head
    rw [if_pos h0]
  · rw [if_neg hgt]
    have hlen : count.toNat = rows.length := by omega
    rw [hlen, List.take_length]

theorem trim_final_of_lt (rows : List Row) (count : ℤ) (h : (rows.length : ℤ) < count) :
    trim_final rows count = rows := by
  unfold trim_final
  rw [if_neg (by omega)]

/-! ### The claims about the generation loop -/

/-- C3 (amended): in every loop iteration the number of rows requested
from the Row Source is `int(needed * 1.1) + 10`, i.e. the floor
`11 * needed / 10 + 10` — a truncation, not the ceiling the claim
states — and `needed` is positive at every request. -/
theorem c3_request_size_amended (cfg : GenConfig) (p : ℤ × ℤ)
    (hp : p ∈ (generateRun cfg).out.reqs) :
    0 < p.1 ∧ p.2 = 11 * p.1 / 10 + 10 := by
  rw [generateRun_out] at hp
  have h := loopGo_reqs_spec cfg.count cfg.sampleF cfg.sampleCols cfg.orig cfg.sel
    (load_anomalies cfg.anomalyCfg) 10 0 0 false [] [] (by simp) p hp
  exact ⟨h.1, by rw [h.2, batch_size_eq_ediv]⟩

theorem cfgC3_reqs : (generateRun cfgC3).out.reqs = [(5, 15)] := by
  have h5 : batch_size 5 = 15 := by
    rw [batch_size_eq_ediv]
    decide
  have h : (generateRun cfgC3).out.reqs = [(5, batch_size 5)] := rfl
  rw [h, h5]

/-- C3 witness: in the run `cfgC3` the request for `needed = 5` asks
for 15 rows, which indeed equals `11 * 5 / 10 + 10`. -/
theorem c3_request_size_amended_witness :
    0 < (5 : ℤ) ∧ (15 : ℤ) = 11 * (5 : ℤ) / 10 + 10 :=
  c3_request_size_amended cfgC3 (5, 15) (by rw [cfgC3_reqs]; decide)

/-- C3 counterexample: with `needed = 5` the code requests
`int(5 * 1.1) + 10 = 15` rows, not `ceil(5 * 1.1) + 10 = 16` as the
claim states. -/
theorem c3_counterexample :
    (generateRun cfgC3).out.reqs = [(5, 15)] ∧
    ¬ ((15 : ℤ) = ⌈((5 : ℚ) * (11 / 10))⌉ + 10) := by
  constructor
  · exact cfgC3_reqs
  · have h : (⌈((5 : ℚ) * (11 / 10))⌉ : ℤ) = 6 := by
      rw [Int.ceil_eq_iff]
      constructor <;> norm_num
    omega

/-- C5: when the loop exits normally with at least `target_count` rows
accumulated, the output is exactly the first `target_count` accumulated
rows, the state is SUCCESS and no shortfall warning fires; when it
exits normally short of the target, the whole accumulated set is the
output, the shortfall warning fires, the state is PARTIAL, the attempt
budget of 10 was exhausted, and the file is still written (no
exception). -/
theorem c5_exact_count_or_best_effort (cfg : GenConfig) (hpos : 0 < cfg.count)
    (hnorm : (generateRun cfg).out.exit = LoopExit.normal) :
    (cfg.count ≤ ((generateRun cfg).out.rows.length : ℤ) →
      (generateRun cfg).final = (generateRun cfg).out.rows.take cfg.count.toNat ∧
      ((generateRun cfg).final.length : ℤ) = cfg.count ∧
      (generateRun cfg).state = GState.SUCCESS ∧
      (generateRun cfg).shortfallWarned = false ∧
      (generateRun cfg).fileWritten = true) ∧
    (((generateRun cfg).out.rows.length : ℤ) < cfg.count →
      (generateRun cfg).final = (generateRun cfg).out.rows ∧
      (generateRun cfg).shortfallWarned = true ∧
      (generateRun cfg).state = GState.PARTIAL ∧
      (generateRun cfg).out.attempts = 10 ∧
      (generateRun cfg).fileWritten = true) := by
  have hnorm' := hnorm
  rw [generateRun_out] at hnorm'
  have hbudget := loopGo_normal_budget cfg.count cfg.sampleF cfg.sampleCols cfg.orig cfg.sel
    (load_anomalies cfg.anomalyCfg) 10 0 0 false [] [] hnorm'
  have hfin := finish_exit_normal cfg.count
    (parse_warned cfg.anomalyCfg &&
      (loopGo cfg.count cfg.sampleF cfg.sampleCols cfg.orig cfg.sel
        (load_anomalies cfg.anomalyCfg) 10 0 0 false [] []).injectRan)
    (loopGo cfg.count cfg.sampleF cfg.sampleCols cfg.orig cfg.sel
      (load_anomalies cfg.anomalyCfg) 10 0 0 false [] []) hnorm'
  have hrun : generateRun cfg = _ := hfin
  generalize hLg : loopGo cfg.count cfg.sampleF cfg.sampleCols cfg.orig cfg.sel
      (load_anomalies cfg.anomalyCfg) 10 0 0 false [] [] = L at hbudget hrun
  rw [hrun]
  dsimp only
  constructor
  · intro hge
    have ht : trim_final L.rows cfg.count = L.rows.take cfg.count.toNat :=
      trim_final_of_ge _ _ (by omega) hge
    have hlen : ((L.rows.take cfg.count.toNat).length : ℤ) = cfg.count := by
      rw [List.length_take]
      push_cast
      omega
    rw [ht]
    refine ⟨rfl, hlen, ?_, ?_, rfl⟩
    · rw [if_neg (by omega)]
    · simp only [decide_eq_false_iff_not]
      omega
  · intro hlt
    have ht : trim_final L.rows cfg.count = L.rows := trim_final_of_lt _ _ hlt
    have h10 : L.attempts = 10 := by
      rcases hbudget with h' | h'
      · omega
      · omega
    rw [ht]
    refine ⟨rfl, ?_, ?_, h10, rfl⟩
    · simp only [decide_eq_true_eq]
      omega
    · rw [if_pos (by omega)]

/-- C5 witness: run `cfgC5` (target 2, model offers three distinct
rows) reaches the target on the first attempt and outputs exactly the
first two accumulated rows in SUCCESS. -/
theorem c5_exact_count_or_best_effort_witness :
    (generateRun cfgC5).final = (generateRun cfgC5).out.rows.take cfgC5.count.toNat ∧
    ((generateRun cfgC5).final.length : ℤ) = cfgC5.count ∧
    (generateRun cfgC5).state = GState.SUCCESS ∧
    (generateRun cfgC5).shortfallWarned = false ∧
    (generateRun cfgC5).fileWritten = true :=
  (c5_exact_count_or_best_effort cfgC5 (by decide) (by decide)).1 (by decide)

/-- C6: a run with `target_count <= 0` returns an empty result in
SUCCESS state, with zero calls to the Row Source and zero attempts. -/
theorem c6_empty_target (cfg : GenConfig) (h : cfg.count ≤ 0) :
    (generateRun cfg).final = [] ∧
    (generateRun cfg).state = GState.SUCCESS ∧
    (generateRun cfg).out.calls = 0 ∧
    (generateRun cfg).out.attempts = 0 := by
  have hL : loopGo cfg.count cfg.sampleF cfg.sampleCols cfg.orig cfg.sel
      (load_anomalies cfg.anomalyCfg) 10 0 0 false [] [] = ⟨[], 0, 0, false, [], .normal⟩ :=
    loopGo_done (by simp only [List.length_nil, Nat.cast_zero]; omega)
  have hfin := finish_exit_normal cfg.count
    (parse_warned cfg.anomalyCfg && (⟨[], 0, 0, false, [], .normal⟩ : LoopOut).injectRan)
    (⟨[], 0, 0, false, [], .normal⟩ : LoopOut) rfl
  have hrun : generateRun cfg = finish cfg.count
      (parse_warned cfg.anomalyCfg && (⟨[], 0, 0, false, [], .normal⟩ : LoopOut).injectRan)
      (⟨[], 0, 0, false, [], .normal⟩ : LoopOut) := by
    unfold generateRun
    rw [hL]
  rw [hrun, hfin]
  dsimp only
  rw [trim_final_nil]
  refine ⟨rfl, ?_, rfl, rfl⟩
  rw [if_neg (by simp only [List.length_nil, Nat.cast_zero]; omega)]

/-- C6 witness: the run with target 0 outputs nothing, in SUCCESS,
without calling the Row Source. -/
theorem c6_empty_target_witness :
    (generateRun cfgC6).final = [] ∧
    (generateRun cfgC6).state = GState.SUCCESS ∧
    (generateRun cfgC6).out.calls = 0 ∧
    (generateRun cfgC6).out.attempts = 0 :=
  c6_empty_target cfgC6 (by decide)

/-- C7 (amended): when the Row Source fails mid-loop the run ends in
FAILED and the loop stops at the failing call (the model call of the
final attempt indeed failed, and no more than the budget was used);
but the accumulated rows are still trimmed and written to the output
file — a partial file is emitted in the FAILED state as well, not only
under PARTIAL. -/
theorem c7_failure_writes_partial_amended (cfg : GenConfig)
    (h : (generateRun cfg).out.exit = LoopExit.sampleFailed) :
    (generateRun cfg).state = GState.FAILED ∧
    (generateRun cfg).fileWritten = true ∧
    (generateRun cfg).final = trim_final (generateRun cfg).out.rows cfg.count ∧
    cfg.sampleF (generateRun cfg).out.attempts
      (batch_size (cfg.count - ((generateRun cfg).out.rows.length : ℤ))).toNat = none ∧
    (generateRun cfg).out.attempts ≤ 10 := by
  have h' := h
  rw [generateRun_out] at h'
  have hsample := loopGo_sampleFailed_spec cfg.count cfg.sampleF cfg.sampleCols cfg.orig
    cfg.sel (load_anomalies cfg.anomalyCfg) 10 0 0 false [] [] h'
  have hle := loopGo_attempts_le cfg.count cfg.sampleF cfg.sampleCols cfg.orig
    cfg.sel (load_anomalies cfg.anomalyCfg) 10 0 0 false [] []
  have hfin := finish_exit_sampleFailed cfg.count
    (parse_warned cfg.anomalyCfg &&
      (loopGo cfg.count cfg.sampleF cfg.sampleCols cfg.orig cfg.sel
        (load_anomalies cfg.anomalyCfg) 10 0 0 false [] []).injectRan)
    (loopGo cfg.count cfg.sampleF cfg.sampleCols cfg.orig cfg.sel
      (load_anomalies cfg.anomalyCfg) 10 0 0 false [] []) h'
  have hrun : generateRun cfg = _ := hfin
  generalize hLg : loopGo cfg.count cfg.sampleF cfg.sampleCols cfg.orig cfg.sel
      (load_anomalies cfg.anomalyCfg) 10 0 0 false [] [] = L at hsample hle hrun
  rw [hrun]
  dsimp only
  exact ⟨rfl, rfl, rfl, hsample, by omega⟩

/-- C7 witness: the run `cfgC7`, whose first sampling call fails, ends
FAILED with the output file written. -/
theorem c7_failure_writes_partial_amended_witness :
    (generateRun cfgC7).state = GState.FAILED ∧
    (generateRun cfgC7).fileWritten = true := by
  have h := c7_failure_writes_partial_amended cfgC7 (by decide)
  exact ⟨h.1, h.2.1⟩

/-- C7 counterexample: in the run `cfgC7` the Row Source fails on the
first attempt, yet the (empty, short of target 5) result is written to
the output file while the run is in FAILED state, not PARTIAL — so a
file with fewer than `target_count` rows is written outside the
PARTIAL state. -/
theorem c7_counterexample :
    (generateRun cfgC7).fileWritten = true ∧
    ((generateRun cfgC7).final.length : ℤ) < cfgC7.count ∧
    (generateRun cfgC7).state ≠ GState.PARTIAL := by
  refine ⟨by decide, by decide, by decide⟩

/-- C8: the Accumulator appends each batch and deduplicates by
full-row equality across the whole accumulated set: the run over a
batch sequence equals `drop_duplicates` of the concatenation, contains
no duplicate rows, contains exactly the rows of the batches, is a
subsequence of the concatenation (order preserved), lists rows in the
order of their first occurrences, and rerunning the Accumulator over
the same batch sequence changes nothing (idempotence) — in particular
a row equal to one collected in an earlier pass is dropped. -/
theorem c8_accumulator_idempotent_dedup (bs : List (List Row)) :
    runAcc bs = drop_duplicates bs.flatten ∧
    (runAcc bs).Nodup ∧
    (∀ x : Row, x ∈ runAcc bs ↔ ∃ b ∈ bs, x ∈ b) ∧
    List.Sublist (runAcc bs) bs.flatten ∧
    (runAcc bs).Pairwise (fun a b => firstIdx bs.flatten a < firstIdx bs.flatten b) ∧
    bs.foldl accumulate (runAcc bs) = runAcc bs := by
  have he := runAcc_eq bs
  refine ⟨he, ?_, ?_, ?_, ?_, ?_⟩
  · rw [he]; exact dedupGo_nodup bs.flatten []
  · intro x
    rw [he]
    have hm := @dedupGo_mem Row _ bs.flatten [] x
    unfold drop_duplicates
    rw [hm]
    simp [List.mem_flatten]
  · rw [he]; exact dedupGo_sublist bs.flatten []
  · rw [he]; exact dedupGo_pairwise bs.flatten []
  · rw [he]
    have h1 : bs.foldl accumulate (drop_duplicates bs.flatten) =
        drop_duplicates (bs.flatten ++ bs.flatten) := by
      have := foldl_accumulate bs bs.flatten
      rw [this]
    rw [h1]
    exact dedupGo_append_of_subset bs.flatten [] bs.flatten (fun x hx => Or.inl hx)

/-- C8 witness: the Accumulator over two batches sharing a row keeps
one copy and is idempotent there. -/
theorem c8_accumulator_idempotent_dedup_witness :
    (runAcc [[rx 1], [rx 1, rx 2]]).Nodup ∧
    [[rx 1], [rx 1, rx 2]].foldl accumulate (runAcc [[rx 1], [rx 1, rx 2]]) =
      runAcc [[rx 1], [rx 1, rx 2]] := by
  have h := c8_accumulator_idempotent_dedup [[rx 1], [rx 1, rx 2]]
  exact ⟨h.2.1, h.2.2.2.2.2⟩

/-! ### The anomaly injector -/

theorem rowGet_rowSet (r : Row) (c : Col) (v : Val) (h : c ∈ r.map Prod.fst) :
    rowGet (rowSet r c v) c = some v := by
  induction r with
  | nil => simp at h
  | cons p r ih =>
    rcases p with ⟨c', w⟩
    by_cases hcc : c' = c
    · subst hcc
      have hhead : rowSet ((c', w) :: r) c' v = (c', v) :: rowSet r c' v := by
        unfold rowSet
        rw [List.map_cons]
        congr 1
        simp
      rw [hhead, rowGet, if_pos rfl]
    · simp only [rowSet, List.map_cons] at *
      rw [if_neg hcc]
      show rowGet ((c', w) :: rowSet r c v) c = some v
      rw [rowGet, if_neg hcc]
      apply ih
      simp only [List.mem_cons] at h
      rcases h with h | h
      · exact absurd h.symm hcc
      · exact h

theorem enumMap_getElem (df : List Row) (g : ℕ × Row → Row) (i : ℕ) :
    (df.enum.map g)[i]? = (df[i]?).map (fun r => g (i, r)) := by
  rw [List.getElem?_map, List.getElem?_enum, Option.map_map]
  rfl

theorem snd_mem_of_mem_enum (df : List Row) (q : ℕ × Row) (h : q ∈ df.enum) : q.2 ∈ df := by
  have hm := List.mem_map_of_mem Prod.snd h
  rwa [List.enum_map_snd] at hm

theorem countP_le_of_chosen (df : List Row) (chosen : List ℕ) (hnd : chosen.Nodup)
    (hvalid : ∀ i ∈ chosen, i < df.length) (p : ℕ × Row → Bool)
    (hp : ∀ q ∈ df.enum, q.1 ∈ chosen → p q = true) :
    chosen.length ≤ df.enum.countP p := by
  have h1 : chosen.length ≤
      ((List.range df.length).filter (fun i => decide (i ∈ chosen))).length := by
    apply List.Subperm.length_le
    apply List.subperm_of_subset hnd
    intro i hi
    rw [List.mem_filter]
    exact ⟨List.mem_range.mpr (hvalid i hi), by simpa using hi⟩
  have h2 : ((List.range df.length).filter (fun i => decide (i ∈ chosen))).length =
      (List.range df.length).countP (fun i => decide (i ∈ chosen)) :=
    (List.countP_eq_length_filter _ _).symm
  have h3 : (List.range df.length).countP (fun i => decide (i ∈ chosen)) =
      (df.enum.map Prod.fst).countP (fun i => decide (i ∈ chosen)) := by
    rw [List.enum_map_fst]
  have h4 : (df.enum.map Prod.fst).countP (fun i => decide (i ∈ chosen)) =
      df.enum.countP (fun q => decide (q.1 ∈ chosen)) := by
    rw [List.countP_map]
    rfl
  have h5 : df.enum.countP (fun q => decide (q.1 ∈ chosen)) ≤ df.enum.countP p := by
    apply List.countP_mono_left
    intro q hq hdec
    exact hp q hq (by simpa using hdec)
  omega

theorem apply_fixed_eq (cols : List Col) (df : List Row) (c : Col) (v : Val) (f : ℚ)
    (chosen : List ℕ) (hc : c ∈ cols) :
    apply_anomalies cols [fixed_rule c v f] (fun _ _ => chosen) df =
      df.enum.map (fun p => if p.1 ∈ chosen then rowSet p.2 c v else p.2) := by
  have hred : apply_anomalies cols [fixed_rule c v f] (fun _ _ => chosen) df =
      apply_rule cols df (fixed_rule c v f) chosen := rfl
  rw [hred]
  unfold apply_rule fixed_rule
  simp [hc, valOrNull]

theorem apply_null_eq (cols : List Col) (df : List Row) (c : Col) (f : ℚ)
    (chosen : List ℕ) (hc : c ∈ cols) :
    apply_anomalies cols [null_rule c f] (fun _ _ => chosen) df =
      df.enum.map (fun p => if p.1 ∈ chosen then rowSet p.2 c Val.vNull else p.2) := by
  have hred : apply_anomalies cols [null_rule c f] (fun _ _ => chosen) df =
      apply_rule cols df (null_rule c f) chosen := rfl
  rw [hred]
  unfold apply_rule null_rule
  simp [hc]

theorem rat_floor_eq_int_floor (q : ℚ) : q.floor = ⌊q⌋ := by
  rw [Rat.floor_def', Rat.floor_def]

/-- C4 (amended): for a single anomaly rule on a column present in the
batch, the injector touches exactly the `int(n * fraction)` distinct
row indices drawn by `df.sample` (truncation `int`, not `round` as the
claim states; the random draw is modelled by the oracle list `chosen`,
assumed distinct and valid as pandas guarantees): a FIXED_VALUE rule
sets the column to the value at exactly the chosen indices and leaves
every other row unchanged, so at least `int(n * fraction)` output rows
carry the value; a NULLIFY rule sets the column to null at exactly the
chosen indices. -/
theorem c4_injector_amended (cols : List Col) (df : List Row) (c : Col) (v : Val)
    (f : ℚ) (chosen : List ℕ)
    (hc : c ∈ cols)
    (hrow : ∀ r ∈ df, c ∈ r.map Prod.fst)
    (hlen : chosen.length = sample_count df.length f)
    (hnd : chosen.Nodup)
    (hvalid : ∀ i ∈ chosen, i < df.length) :
    (apply_anomalies cols [fixed_rule c v f] (fun _ _ => chosen) df).length = df.length ∧
    (∀ i ∈ chosen,
      (apply_anomalies cols [fixed_rule c v f] (fun _ _ => chosen) df)[i]? =
        (df[i]?).map (fun r => rowSet r c v)) ∧
    (∀ i : ℕ, i ∉ chosen →
      (apply_anomalies cols [fixed_rule c v f] (fun _ _ => chosen) df)[i]? = df[i]?) ∧
    sample_count df.length f ≤
      (apply_anomalies cols [fixed_rule c v f] (fun _ _ => chosen) df).countP
        (fun r => decide (rowGet r c = some v)) ∧
    (∀ i ∈ chosen,
      (apply_anomalies cols [null_rule c f] (fun _ _ => chosen) df)[i]? =
        (df[i]?).map (fun r => rowSet r c Val.vNull)) := by
  have hfix := apply_fixed_eq cols df c v f chosen hc
  have hnull := apply_null_eq cols df c f chosen hc
  refine ⟨?_, ?_, ?_, ?_, ?_⟩
  · rw [hfix]
    simp
  · intro i hi
    rw [hfix, enumMap_getElem]
    cases df[i]? <;> simp [hi]
  · intro i hi
    rw [hfix, enumMap_getElem]
    cases df[i]? <;> simp [hi]
  · rw [hfix, List.countP_map, ← hlen]
    apply countP_le_of_chosen df chosen hnd hvalid
    intro q hq hqc
    have hmem : q.2 ∈ df := snd_mem_of_mem_enum df q hq
    have hgv := rowGet_rowSet q.2 c v (hrow q.2 hmem)
    simp [Function.comp, hqc, hgv]
  · intro i hi
    rw [hnull, enumMap_getElem]
    cases df[i]? <;> simp [hi]

/-- C4 witness: three one-column rows, fraction 1/2, so
`int(3 * 1/2) = 1` index is drawn; the fixed value lands on at least
one output row. -/
theorem c4_injector_amended_witness :
    sample_count 3 (1/2) ≤
      (apply_anomalies ["x"] [fixed_rule "x" (Val.vInt 9) (1/2)] (fun _ _ => [0])
        [rx 1, rx 2, rx 3]).countP (fun r => decide (rowGet r "x" = some (Val.vInt 9))) := by
  have hsc : sample_count 3 (1/2) = 1 := by
    rw [sample_count, rat_floor_eq_int_floor,
      show ((3 : ℕ) : ℚ) * (1/2) = ((3 : ℤ) : ℚ) / ((2 : ℕ) : ℚ) by norm_num,
      Rat.floor_intCast_div_natCast]
    decide
  exact (c4_injector_amended ["x"] [rx 1, rx 2, rx 3] "x" (Val.vInt 9) (1/2) [0]
    (by decide) (by decide)
    (by rw [show ([rx 1, rx 2, rx 3] : List Row).length = 3 from rfl, hsc]; rfl)
    (by decide) (by decide)).2.2.2.1

/-- C4 counterexample: for a batch of 30 rows and fraction 0.05 the
code draws `int(30 * 0.05) = 1` index, while the claim's
`round(30 * 0.05) = 2`. -/
theorem c4_counterexample :
    sample_count 30 (1/20) = 1 ∧ round ((30 : ℚ) * (1/20)) = 2 := by
  constructor
  · rw [sample_count, rat_floor_eq_int_floor,
      show ((30 : ℕ) : ℚ) * (1/20) = ((3 : ℤ) : ℚ) / ((2 : ℕ) : ℚ) by norm_num,
      Rat.floor_intCast_div_natCast]
    decide
  · rw [round_eq, show ((30 : ℚ) * (1/20) + 1/2) = ((2 : ℤ) : ℚ) by norm_num]
    simp

/-- C9: a FIXED_VALUE rule whose `value` field is absent is not
skipped: `anomaly.get('value')` yields Python `None`, which is written
into the column at the selected indices — exactly the behaviour of a
NULLIFY rule with the same column and fraction. -/
theorem c9_fixed_without_value_nullifies (cols : List Col) (df : List Row)
    (sel : ℕ → ℕ → List ℕ) (c : Col) (f : Option ℚ) :
    apply_anomalies cols [⟨some c, some "fixed", none, f⟩] sel df =
      apply_anomalies cols [⟨some c, some "null", none, f⟩] sel df := by
  have h1 : apply_anomalies cols [⟨some c, some "fixed", none, f⟩] sel df =
      apply_rule cols df ⟨some c, some "fixed", none, f⟩
        (sel 0 (sample_count df.length (f.getD (1/20)))) := rfl
  have h2 : apply_anomalies cols [⟨some c, some "null", none, f⟩] sel df =
      apply_rule cols df ⟨some c, some "null", none, f⟩
        (sel 0 (sample_count df.length (f.getD (1/20)))) := rfl
  rw [h1, h2]
  unfold apply_rule
  by_cases hc : c ∈ cols
  · simp [hc, valOrNull]
  · simp [hc]

/-! ### The leakage claims and the anomaly-JSON claim -/

/-- C1 (code bug): the no-leakage invariant fails.  In `cfgC1` the
original data is x = 1, 1, 3 and the sampled batch x = 1, 2, 3, 4;
the duplicated key x = 1 makes the left merge two rows longer than the
batch, so the positions passed to `drop` are shifted and the run keeps
exactly the row x = 3 — a row that matches an original row on the
common column — and succeeds with it as the whole output. -/
theorem c1_no_leakage_violated :
    cfgC1.orig = some (["x"], [rx 1, rx 1, rx 3]) ∧
    (generateRun cfgC1).state = GState.SUCCESS ∧
    (generateRun cfgC1).final = [rx 3] ∧
    rx 3 ∈ [rx 1, rx 1, rx 3] ∧
    0 < matchCount ["x"] [rx 1, rx 1, rx 3] (rx 3) := by
  refine ⟨rfl, by decide, by decide, by decide, by decide⟩

/-- C2 (code bug): the leakage filter does not remove exactly the
matching rows.  Against an original with the duplicated key x = 1, the
batch x = 1, 2 loses its non-leaking row x = 2 (the filtered batch is
empty although `matchCount` of x = 2 is zero), and the reordered batch
x = 2, 1 makes `drop` raise a `KeyError` (modelled as `none`) because
the merged frame's positions exceed the batch length. -/
theorem c2_filter_removes_wrong_rows :
    matchCount ["x"] [rx 1, rx 1] (rx 2) = 0 ∧
    leak_step (some (["x"], [rx 1, rx 1])) ["x"] [rx 1, rx 2] = some [] ∧
    leak_step (some (["x"], [rx 1, rx 1])) ["x"] [rx 2, rx 1] = none := by
  refine ⟨by decide, by decide, by decide⟩

/-- C10 (amended): a run whose anomaly-JSON string fails to parse
behaves exactly like the same run with no anomaly configuration at all
— injection is disabled, every batch passes through unmodified, the
run continues to completion — and the parse warning is recorded iff
the loop's inject step ran at least once: `load_anomalies` logs the
warning at line 76, inside the loop after a successful sampling call,
so a run that never draws a batch records no warning. -/
theorem c10_unparseable_json_amended (cfg : GenConfig)
    (h : cfg.anomalyCfg = some none) :
    generateRun cfg =
      { generateRun { cfg with anomalyCfg := none } with
          anomalyWarned := (generateRun cfg).out.injectRan } ∧
    (generateRun cfg).anomalyWarned = (generateRun cfg).out.injectRan := by
  have hw : parse_warned cfg.anomalyCfg = true := by rw [h]; rfl
  have hl : load_anomalies cfg.anomalyCfg = none := by rw [h]; rfl
  have hout := generateRun_out cfg
  constructor
  · have e3 : (generateRun cfg).out.injectRan =
        (loopGo cfg.count cfg.sampleF cfg.sampleCols cfg.orig cfg.sel none
          10 0 0 false [] []).injectRan := by
      rw [hout, hl]
    have e1 : generateRun cfg =
        finish cfg.count
          ((loopGo cfg.count cfg.sampleF cfg.sampleCols cfg.orig cfg.sel none
            10 0 0 false [] []).injectRan)
          (loopGo cfg.count cfg.sampleF cfg.sampleCols cfg.orig cfg.sel none
            10 0 0 false [] []) := by
      unfold generateRun
      rw [hl, hw, Bool.true_and]
    have e2 : generateRun { cfg with anomalyCfg := none } =
        finish cfg.count
          (false && (loopGo cfg.count cfg.sampleF cfg.sampleCols cfg.orig cfg.sel none
            10 0 0 false [] []).injectRan)
          (loopGo cfg.count cfg.sampleF cfg.sampleCols cfg.orig cfg.sel none
            10 0 0 false [] []) := rfl
    rw [e3, e1, e2]
    exact finish_warned_indep cfg.count _ _ _
  · have h2 : (generateRun cfg).anomalyWarned =
        (parse_warned cfg.anomalyCfg &&
          (loopGo cfg.count cfg.sampleF cfg.sampleCols cfg.orig cfg.sel
            (load_anomalies cfg.anomalyCfg) 10 0 0 false [] []).injectRan) :=
      finish_anomalyWarned ..
    rw [h2, hw, Bool.true_and, hout]

/-- C10 witness: the run `cfgC10` equals its anomaly-free twin up to
the recorded warning, and the warning matches whether the inject step
ran. -/
theorem c10_unparseable_json_amended_witness :
    generateRun cfgC10 =
      { generateRun { cfgC10 with anomalyCfg := none } with
          anomalyWarned := (generateRun cfgC10).out.injectRan } ∧
    (generateRun cfgC10).anomalyWarned = (generateRun cfgC10).out.injectRan :=
  c10_unparseable_json_amended cfgC10 rfl

/-- C10 counterexample: `cfgC10f` has an unparseable anomaly string,
but its only sampling call fails, so line 76 never runs: the run still
completes and writes the (partial) output file, yet no parse warning
is recorded — refuting the claim's "a warning is recorded" for every
such run. -/
theorem c10_counterexample :
    cfgC10f.anomalyCfg = some none ∧
    (generateRun cfgC10f).anomalyWarned = false ∧
    (generateRun cfgC10f).fileWritten = true := by
  refine ⟨rfl, by decide, by decide⟩
